import Mathlib

/-!
Shallow embedding of the csvdump repository's core (schema builder, type
mapper, row decoder, threaded producer, consumer loop) and proofs of its
specification claims.

Source files embedded:
- `src/lib_oradb/src/error.rs` (error taxonomy)
- `src/lib_oradb/src/definition/mod.rs` (data model, serialization)
- `src/lib_oradb/src/definition/builder.rs` (`TableSelectionBuilder`)
- `src/lib_oradb/src/definition/oracle/mod.rs` (type mapper, decoders,
  `query_data`, `query_data_threaded`)
- `src/csvdump/src/main.rs` (consumer thread loop)

Database driver behaviour (the `oracle` crate) is abstracted: a native result
row is a map from column name to a cell offering the typed getters the code
calls (`row.get::<Option<String>>`, `Option<i64>`, `Option<f64>`,
`Option<bool>`, `Option<DateTime<Utc>>`), each of which may fail with a
driver error or yield SQL NULL (`none`).  An `f64` payload is carried as its
64-bit pattern; the code never computes with it.  `BTreeSet`/`BTreeMap` are
modelled as lists sorted by the byte-lexicographic string order that Rust's
`Ord for String` uses.
-/

namespace Csvdump

/-- Lexicographic comparison of character lists, mirroring Rust's
`Ord for String` (byte order on UTF-8 agrees with code-point order). -/
def charListLt : List Char → List Char → Bool
  | [], [] => false
  | [], _ :: _ => true
  | _ :: _, [] => false
  | a :: as, b :: bs => if a < b then true else if b < a then false else charListLt as bs

/-- String comparison used by the `BTreeSet`/`BTreeMap` model. -/
def strLt (a b : String) : Bool := charListLt a.toList b.toList

/-- Rust `Error` from `src/lib_oradb/src/error.rs`; the wrapped `oracle::Error`
payload is carried as a message string. -/
inductive Error
  | DatabaseError (msg : String)
  | UnknownDataType (name : String)
  | UnknownColumn (name : String)
deriving DecidableEq, Repr

/-- Rust `DataType` from `src/lib_oradb/src/definition/mod.rs`. -/
inductive DataType
  | VarChar (len : Nat)
  | Number (len prec : Nat)
  | Boolean
  | Date
  | CLob
  | DateTime
deriving DecidableEq, Repr

/-- Rust `ColumnDefinition` from `src/lib_oradb/src/definition/mod.rs`. -/
structure ColumnDefinition where
  column_name : String
  nullable : Bool
  data_type : DataType
deriving DecidableEq, Repr

/-- Carrier for an `f64` payload: its 64-bit pattern.  The program only moves
such values, never computes with them. -/
structure F64 where
  bits : Nat
deriving DecidableEq, Repr

/-- Carrier for a `chrono::DateTime<Utc>` payload. -/
structure UtcTimestamp where
  year : Nat
  month : Nat
  day : Nat
  hour : Nat
  minute : Nat
  second : Nat
deriving DecidableEq, Repr

/-- Rust `ColumnValue` from `src/lib_oradb/src/definition/mod.rs`. -/
inductive ColumnValue
  | Varchar (s : String)
  | Float (f : F64)
  | Number (i : Int)
  | Boolean (b : Bool)
  | Date (t : UtcTimestamp)
  | DateTime (t : UtcTimestamp)
deriving DecidableEq, Repr

/-- Rust `RowIndicator` from `src/lib_oradb/src/definition/mod.rs`.  A
`MoreToCome` payload is the `Vec<Option<ColumnValue>>` of one row. -/
inductive RowIndicator
  | EndOfData
  | MoreToCome (vals : List (Option ColumnValue))
deriving DecidableEq, Repr

/-- One native result cell as the driver presents it: each typed getter the
code calls may fail with a driver error, yield SQL NULL, or yield a value. -/
structure NativeCell where
  getString : Except Error (Option String)
  getInt : Except Error (Option Int)
  getFloat : Except Error (Option F64)
  getBool : Except Error (Option Bool)
  getDate : Except Error (Option UtcTimestamp)

/-- One native result row: cells addressed by column name, as in
`row.get(col_item.column_name.as_str())`. -/
def NativeRow := String → NativeCell

/-- The `data_type` match in `query_column_data`
(`src/lib_oradb/src/definition/oracle/mod.rs` lines 108-116), with
`data_length.unwrap_or(0)` / `data_precision.unwrap_or(0)` defaults. -/
def mapDataType (data_type : String) (data_length data_precision : Option Nat) :
    Except Error DataType :=
  if data_type = "NUMBER" then .ok (.Number (data_length.getD 0) (data_precision.getD 0))
  else if data_type = "VARCHAR2" then .ok (.VarChar (data_length.getD 0))
  else if data_type = "DATE" then .ok .Date
  else if data_type = "TIMESTAMP(6)" then .ok .DateTime
  else if data_type = "BOOL" then .ok .Boolean
  else if data_type = "CLOB" then .ok .CLob
  else .error (.UnknownDataType data_type)

/-- One raw row of the `ALL_TAB_COLUMNS` catalog query, with the five fields
`query_column_data` extracts (driver-level extraction abstracted). -/
structure CatalogRow where
  column_name : String
  nullable_str : String
  data_type : String
  data_length : Option Nat
  data_precision : Option Nat

/-- The row loop of `query_column_data`
(`src/lib_oradb/src/definition/oracle/mod.rs` lines 91-127): converts each
catalog row, short-circuiting at the first unknown data type. -/
def query_column_data : List CatalogRow → Except Error (List ColumnDefinition)
  | [] => .ok []
  | r :: rest =>
    match mapDataType r.data_type r.data_length r.data_precision with
    | .error e => .error e
    | .ok dt =>
      match query_column_data rest with
      | .error e => .error e
      | .ok tl => .ok ({ column_name := r.column_name
                         nullable := "Y" = r.nullable_str
                         data_type := dt } :: tl)

/-- Per-field decode closure shared by `query_data` and
`query_data_threaded` (`src/lib_oradb/src/definition/oracle/mod.rs`
lines 238-279): the getter used is chosen by the column's `DataType`. -/
def decodeField (col : ColumnDefinition) (row : NativeRow) :
    Except Error (Option ColumnValue) :=
  match col.data_type with
  | .VarChar _ | .CLob =>
    (row col.column_name).getString.map (fun d => d.map ColumnValue.Varchar)
  | .Number _ precision =>
    if precision > 0 then
      (row col.column_name).getFloat.map (fun d => d.map ColumnValue.Float)
    else
      (row col.column_name).getInt.map (fun d => d.map ColumnValue.Number)
  | .Boolean => (row col.column_name).getBool.map (fun d => d.map ColumnValue.Boolean)
  | .Date => (row col.column_name).getDate.map (fun d => d.map ColumnValue.Date)
  | .DateTime => (row col.column_name).getDate.map (fun d => d.map ColumnValue.DateTime)

/-- The `collect::<Result<Vec<Option<ColumnValue>>>>` over
`column_names.values()`: decodes the fields of one row in canonical column
order, short-circuiting at the first failing field. -/
def decodeRowValues (cols : List ColumnDefinition) (row : NativeRow) :
    Except Error (List (Option ColumnValue)) :=
  match cols with
  | [] => .ok []
  | c :: rest =>
    match decodeField c row with
    | .error e => .error e
    | .ok v =>
      match decodeRowValues rest row with
      | .error e => .error e
      | .ok vs => .ok (v :: vs)

/-- Rust `DataRow` from `src/lib_oradb/src/definition/mod.rs`: decoded values plus
the non-owning back link to the shared column map. -/
structure DataRow where
  column_defs : List (String × ColumnDefinition)
  column_values : List (Option ColumnValue)

/-- The row loop of the bulk `query_data`
(`src/lib_oradb/src/definition/oracle/mod.rs` lines 153-208): each
`row_result?` and each per-row decode short-circuits the whole call. -/
def collectDataRows (columns : List (String × ColumnDefinition)) :
    List (Except Error NativeRow) → Except Error (List DataRow)
  | [] => .ok []
  | .error e :: _ => .error e
  | .ok row :: rest =>
    match decodeRowValues (columns.map Prod.snd) row with
    | .error e => .error e
    | .ok vals =>
      match collectDataRows columns rest with
      | .error e => .error e
      | .ok drs => .ok ({ column_defs := columns, column_values := vals } :: drs)

/-- Bulk `query_data`: the initial `self.query` may itself fail. -/
def query_data (columns : List (String × ColumnDefinition))
    (queryRes : Except Error (List (Except Error NativeRow))) :
    Except Error (List DataRow) :=
  match queryRes with
  | .error e => .error e
  | .ok rrs => collectDataRows columns rrs

/-- Outcome of `query_data_threaded`: normal return value, or the process
abort taken when the sentinel push cannot acquire the queue lock. -/
inductive ProducerOutcome
  | ok
  | err (e : Error)
  | panicked
deriving DecidableEq, Repr

/-- The row loop of `query_data_threaded`
(`src/lib_oradb/src/definition/oracle/mod.rs` lines 233-295): decode each
row, then push `MoreToCome` under the queue write lock; a failed lock
acquisition for a row is only logged and the row is dropped.  `lock i` tells
whether the write-lock acquisition for the `i`-th row succeeds.  Returns the
pushed elements in push order, and the first error if one occurred. -/
def pushRows (cols : List ColumnDefinition) (lock : Nat → Bool) :
    Nat → List (Except Error NativeRow) → List RowIndicator × Option Error
  | _, [] => ([], none)
  | _, .error e :: _ => ([], some e)
  | idx, .ok row :: rest =>
    match decodeRowValues cols row with
    | .error e => ([], some e)
    | .ok vals =>
      let tl := pushRows cols lock (idx + 1) rest
      if lock idx then (.MoreToCome vals :: tl.1, tl.2) else (tl.1, tl.2)

/-- Rust `query_data_threaded` (`src/lib_oradb/src/definition/oracle/mod.rs`
lines 215-309): on any query or decode error it returns that error without
pushing `EndOfData`; on success it pushes `EndOfData` under the write lock,
panicking if that final lock acquisition (`endLock`) fails. -/
def query_data_threaded (columns : List (String × ColumnDefinition))
    (queryRes : Except Error (List (Except Error NativeRow)))
    (lock : Nat → Bool) (endLock : Bool) : List RowIndicator × ProducerOutcome :=
  match queryRes with
  | .error e => ([], .err e)
  | .ok rrs =>
    match pushRows (columns.map Prod.snd) lock 0 rrs with
    | (pushes, some e) => (pushes, .err e)
    | (pushes, none) =>
      if endLock then (pushes ++ [.EndOfData], .ok) else (pushes, .panicked)

/-- One CSV field at the serializer-call level: the `Serialize` impl for
`ColumnValue` maps each variant to one serde serializer call
(`src/lib_oradb/src/definition/mod.rs` lines 223-241), and `Option`'s
`Serialize` maps `None` to `serialize_none`, which the csv writer renders as
an empty field. -/
inductive CsvCell
  | empty
  | boolCell (b : Bool)
  | strCell (s : String)
  | intCell (i : Int)
  | floatCell (f : F64)
deriving DecidableEq, Repr

/-- Zero-pad to two digits, as chrono's `%m`/`%d`/`%H`/`%M`/`%S` do. -/
def pad2 (n : Nat) : String := if n < 10 then "0" ++ toString n else toString n

/-- Zero-pad to four digits, as chrono's `%Y` does. -/
def pad4 (n : Nat) : String :=
  if n < 10 then "000" ++ toString n
  else if n < 100 then "00" ++ toString n
  else if n < 1000 then "0" ++ toString n
  else toString n

/-- chrono `format("%Y-%m-%d")`. -/
def formatDate (t : UtcTimestamp) : String :=
  pad4 t.year ++ "-" ++ pad2 t.month ++ "-" ++ pad2 t.day

/-- chrono `format("%Y-%m-%d %H:%M:%S")`. -/
def formatDateTime (t : UtcTimestamp) : String :=
  formatDate t ++ " " ++ pad2 t.hour ++ ":" ++ pad2 t.minute ++ ":" ++ pad2 t.second

/-- Rust `Serialize for ColumnValue` (`src/lib_oradb/src/definition/mod.rs`
lines 223-241). -/
def serializeValue : ColumnValue → CsvCell
  | .Boolean v => .boolCell v
  | .Date v => .strCell (formatDate v)
  | .DateTime v => .strCell (formatDateTime v)
  | .Number v => .intCell v
  | .Float v => .floatCell v
  | .Varchar v => .strCell v

/-- Serialization of one `Option<ColumnValue>` field: `None` becomes
`serialize_none`, i.e. an empty CSV field. -/
def serializeOpt : Option ColumnValue → CsvCell
  | none => .empty
  | some v => serializeValue v

/-- Rust `BTreeSet<String>::insert` on the sorted-list model. -/
def btreeInsert (x : String) : List String → List String
  | [] => [x]
  | y :: ys =>
    if strLt x y then x :: y :: ys
    else if x = y then y :: ys
    else y :: btreeInsert x ys

/-- Rust `BTreeMap<String, ColumnDefinition>::insert` on the sorted-assoc-list
model (an equal key is overwritten, as `collect` into a `BTreeMap` does). -/
def btreeMapInsert (k : String) (v : ColumnDefinition) :
    List (String × ColumnDefinition) → List (String × ColumnDefinition)
  | [] => [(k, v)]
  | (k', v') :: rest =>
    if strLt k k' then (k, v) :: (k', v') :: rest
    else if k = k' then (k, v) :: rest
    else (k', v') :: btreeMapInsert k v rest

/-- Rust `TableSelectionBuilder` from `src/lib_oradb/src/definition/builder.rs`;
`column_names` models the `BTreeSet<String>` as a `strLt`-sorted list. -/
structure TableSelectionBuilder where
  table_name : String
  column_names : List String

/-- Rust `TableSelectionBuilder::new`. -/
def TableSelectionBuilder.new (table_name : String) : TableSelectionBuilder :=
  { table_name := table_name, column_names := [] }

/-- Rust `TableSelectionBuilder::with` (Lean reserves `with`). -/
def TableSelectionBuilder.withColumn (b : TableSelectionBuilder) (column_name : String) :
    TableSelectionBuilder :=
  { b with column_names := btreeInsert column_name b.column_names }

/-- The builder construction path of `main`
(`src/csvdump/src/main.rs` lines 243-247): `new` followed by one `with` per
requested name. -/
def TableSelectionBuilder.ofNames (table_name : String) (names : List String) :
    TableSelectionBuilder :=
  names.foldl TableSelectionBuilder.withColumn (TableSelectionBuilder.new table_name)

/-- Rust `TableDefinition` from `src/lib_oradb/src/definition/mod.rs`; the
`BTreeMap` of columns as a key-sorted assoc list. -/
structure TableDefinition where
  table_name : String
  columns : List (String × ColumnDefinition)

/-- Rust `TableDefinition::header`: the map's keys in ascending order. -/
def TableDefinition.header (td : TableDefinition) : List String :=
  td.columns.map Prod.fst

/-- Rust `TableSelectionBuilder::build`
(`src/lib_oradb/src/definition/builder.rs` lines 66-109), with the catalog
provider's answer passed in as `discovered`.  The set difference
`queried_names − known_columns` is the sorted `column_names` filtered to the
names absent from `discovered`; its first element (the `BTreeSet` minimum)
feeds `UnknownColumn`. -/
def TableSelectionBuilder.build (b : TableSelectionBuilder)
    (discovered : List ColumnDefinition) : Except Error TableDefinition :=
  let known := discovered.map (fun col => col.column_name)
  let unknown := b.column_names.filter (fun n => !(known.contains n))
  match unknown with
  | u :: _ => .error (.UnknownColumn u)
  | [] =>
    let filtered := discovered.filter (fun col => b.column_names.contains col.column_name)
    .ok { table_name := b.table_name
          columns := filtered.foldl (fun m col => btreeMapInsert col.column_name col m) [] }

/-- Local state of the consumer thread closure in `main`
(`src/csvdump/src/main.rs` lines 309-370): its view of the shared queue, the
local `error_count`, the rows serialized to the csv writer so far, and the
shared row counter. -/
structure ConsumerState where
  queue : List RowIndicator
  error_count : Nat
  written : List (List (Option ColumnValue))
  counter : Nat
deriving DecidableEq, Repr

/-- Result of one pass through the consumer `loop` body: continue looping,
exit via `break` on `EndOfData`, or abort via the lock-failure `panic`. -/
inductive IterOutcome
  | next (s : ConsumerState)
  | finished (s : ConsumerState)
  | panicked
deriving DecidableEq, Repr

/-- One pass through the consumer `loop` body
(`src/csvdump/src/main.rs` lines 311-369).  `readOk`, `writeOk`, `counterOk`
say whether this pass's read-lock, write-lock, and counter-lock acquisitions
succeed.  A failed read lock counts an error (panicking past 3) and is then
treated as an empty queue; a failed write lock counts an error (panicking
past 3) and retries; a failed counter lock is only logged. -/
def consumerIter (s : ConsumerState) (readOk writeOk counterOk : Bool) : IterOutcome :=
  if readOk then
    if s.queue.isEmpty then .next s
    else
      if writeOk then
        match s.queue with
        | [] => .next s
        | .MoreToCome r :: rest =>
          let s' : ConsumerState := { s with queue := rest, written := s.written ++ [r] }
          if counterOk then .next { s' with counter := s'.counter + 1 } else .next s'
        | .EndOfData :: rest => .finished { s with queue := rest }
      else
        if s.error_count + 1 > 3 then .panicked
        else .next { s with error_count := s.error_count + 1 }
  else
    if s.error_count + 1 > 3 then .panicked
    else .next { s with error_count := s.error_count + 1 }

/-- Joint state of one export's streaming pipeline: the producer's remaining
pushes (in push order), the shared queue, and the consumer-owned output and
shared counter.  `done` records that the consumer has exited its loop. -/
structure PipeState where
  pending : List RowIndicator
  queue : List RowIndicator
  written : List (List (Option ColumnValue))
  counter : Nat
  done : Bool
deriving DecidableEq, Repr

/-- Interleaved execution of producer and consumer when every queue-lock
acquisition succeeds: the producer appends its next element under the write
lock, or the consumer runs one loop pass (`consumerIter` with all locks
succeeding; its `error_count` stays 0). -/
inductive PipeStep : PipeState → PipeState → Prop
  | producerPush (s : PipeState) (x : RowIndicator) (rest : List RowIndicator) :
      s.pending = x :: rest →
      PipeStep s { s with pending := rest, queue := s.queue ++ [x] }
  | consumerNext (s : PipeState) (cs : ConsumerState) :
      s.done = false →
      consumerIter ⟨s.queue, 0, s.written, s.counter⟩ true true true = .next cs →
      PipeStep s { s with queue := cs.queue, written := cs.written, counter := cs.counter }
  | consumerFinish (s : PipeState) (cs : ConsumerState) :
      s.done = false →
      consumerIter ⟨s.queue, 0, s.written, s.counter⟩ true true true = .finished cs →
      PipeStep s { pending := s.pending, queue := cs.queue, written := cs.written,
                   counter := cs.counter, done := true }

/-- Reachability under pipeline interleavings. -/
def PipeReach : PipeState → PipeState → Prop := Relation.ReflTransGen PipeStep

/-- Pipeline start state: consumer thread spawned with empty queue and zero
counter, producer about to make the pushes in `pending`. -/
def initPipe (pending : List RowIndicator) : PipeState :=
  { pending := pending, queue := [], written := [], counter := 0, done := false }

/-- The elements `query_data_threaded` would push for decoded rows `ds` when
the write-lock acquisition for row `i` succeeds iff `lock i`: the rows whose
lock succeeded, in retrieval order. -/
def selectPushed (lock : Nat → Bool) : Nat → List (List (Option ColumnValue)) → List RowIndicator
  | _, [] => []
  | idx, d :: rest =>
    if lock idx then .MoreToCome d :: selectPushed lock (idx + 1) rest
    else selectPushed lock (idx + 1) rest

/-- A driver row result that arrives intact and decodes to values `d`. -/
def DecodesTo (cols : List ColumnDefinition) (rr : Except Error NativeRow)
    (d : List (Option ColumnValue)) : Prop :=
  ∃ nr, rr = .ok nr ∧ decodeRowValues cols nr = .ok d

/-- A driver row result on which retrieval fails with `e`: either the
`row_result?` itself fails, or some per-field decode fails. -/
def BadRow (cols : List ColumnDefinition) (rr : Except Error NativeRow) (e : Error) : Prop :=
  rr = .error e ∨ ∃ nr, rr = .ok nr ∧ decodeRowValues cols nr = .error e

/-- A native cell holding SQL NULL: every typed getter answers `none`. -/
def CellNull (c : NativeCell) : Prop :=
  c.getString = .ok none ∧ c.getInt = .ok none ∧ c.getFloat = .ok none ∧
  c.getBool = .ok none ∧ c.getDate = .ok none

/-- Predicate: `vals` is one decoded row for column list `cols`: one entry per column,
entry `i` decoded from column `i`. -/
def Aligned (cols : List ColumnDefinition) (nr : NativeRow)
    (vals : List (Option ColumnValue)) : Prop :=
  vals.length = cols.length ∧
  ∀ i (hc : i < cols.length) (hv : i < vals.length),
    decodeField cols[i] nr = .ok vals[i]

/-- Pipeline invariant for source rows `ds`: the counter tracks the rows
written; while the consumer runs, the queue followed by the pushes still to
come is exactly the not-yet-written rows followed by the sentinel, and the
written output is a prefix of `ds`; once the consumer has terminated,
everything has been written and drained. -/
def PipeInv (ds : List (List (Option ColumnValue))) (s : PipeState) : Prop :=
  s.counter = s.written.length ∧
  (s.done = true → s.written = ds ∧ s.pending = [] ∧ s.queue = []) ∧
  (s.done = false →
    s.queue ++ s.pending =
      (ds.drop s.written.length).map RowIndicator.MoreToCome ++ [RowIndicator.EndOfData] ∧
    s.written = ds.take s.written.length)

/-! ## The string order used by the `BTreeSet`/`BTreeMap` model -/

theorem charListLt_iff_lex (as bs : List Char) :
    charListLt as bs = true ↔ List.Lex (fun a b => a < b) as bs := by
  induction as generalizing bs with
  | nil =>
    cases bs with
    | nil => simp [charListLt]
    | cons b bs' => simp [charListLt]; exact List.Lex.nil
  | cons a as' ih =>
    cases bs with
    | nil => simp [charListLt]
    | cons b bs' =>
      simp only [charListLt]
      by_cases hab : a < b
      · simp [hab]; exact List.Lex.rel hab
      · by_cases hba : b < a
        · simp [hab, hba]
          intro h
          cases h with
          | rel h' => exact absurd h' hab
          | cons h' => exact absurd rfl (ne_of_gt hba)
        · have heq : a = b := le_antisymm (not_lt.mp hba) (not_lt.mp hab)
          subst heq
          simp [hab, hba, ih]
          constructor
          · intro h; exact List.Lex.cons h
          · intro h
            cases h with
            | rel h' => exact absurd h' hab
            | cons h' => exact h'

theorem strLt_iff (a b : String) : strLt a b = true ↔ a < b := by
  rw [String.lt_iff_toList_lt]
  exact charListLt_iff_lex a.toList b.toList

theorem strLt_false_iff (a b : String) : strLt a b = false ↔ ¬ a < b := by
  rw [← strLt_iff]
  cases strLt a b <;> simp

/-! ## `BTreeSet` model lemmas -/

theorem mem_btreeInsert (a x : String) (l : List String) :
    a ∈ btreeInsert x l ↔ a = x ∨ a ∈ l := by
  induction l with
  | nil => simp [btreeInsert]
  | cons y ys ih =>
    simp only [btreeInsert]
    split_ifs with h1 h2
    · simp [List.mem_cons]
    · subst h2
      simp [List.mem_cons]
    · simp [List.mem_cons, ih]
      tauto

theorem sorted_btreeInsert (x : String) (l : List String)
    (h : l.Pairwise (fun a b => a < b)) :
    (btreeInsert x l).Pairwise (fun a b => a < b) := by
  induction l with
  | nil => simp [btreeInsert]
  | cons y ys ih =>
    rw [List.pairwise_cons] at h
    obtain ⟨hy, hys⟩ := h
    simp only [btreeInsert]
    split_ifs with h1 h2
    · rw [List.pairwise_cons]
      refine ⟨?_, List.pairwise_cons.mpr ⟨hy, hys⟩⟩
      intro b hb
      rcases List.mem_cons.mp hb with rfl | hb'
      · exact (strLt_iff x b).mp h1
      · exact lt_trans ((strLt_iff x y).mp h1) (hy b hb')
    · subst h2
      exact List.pairwise_cons.mpr ⟨hy, hys⟩
    · rw [List.pairwise_cons]
      refine ⟨?_, ih hys⟩
      intro b hb
      rcases (mem_btreeInsert b x ys).mp hb with rfl | hb'
      · have hxy : ¬ b < y := fun hc => h1 ((strLt_iff b y).mpr hc)
        exact lt_of_le_of_ne (not_lt.mp hxy) (Ne.symm h2)
      · exact hy b hb'

theorem mem_foldl_withColumn (names : List String) :
    ∀ (b : TableSelectionBuilder) (a : String),
      a ∈ (names.foldl TableSelectionBuilder.withColumn b).column_names ↔
        a ∈ b.column_names ∨ a ∈ names := by
  induction names with
  | nil => intro b a; simp
  | cons n ns ih =>
    intro b a
    simp only [List.foldl_cons, ih, TableSelectionBuilder.withColumn, mem_btreeInsert,
      List.mem_cons]
    tauto

theorem sorted_foldl_withColumn (names : List String) :
    ∀ (b : TableSelectionBuilder),
      b.column_names.Pairwise (fun a c => a < c) →
      (names.foldl TableSelectionBuilder.withColumn b).column_names.Pairwise
        (fun a c => a < c) := by
  induction names with
  | nil => intro b h; simpa using h
  | cons n ns ih =>
    intro b h
    exact ih _ (sorted_btreeInsert n b.column_names h)

theorem ofNames_mem (t : String) (names : List String) (a : String) :
    a ∈ (TableSelectionBuilder.ofNames t names).column_names ↔ a ∈ names := by
  unfold TableSelectionBuilder.ofNames
  rw [mem_foldl_withColumn]
  simp [TableSelectionBuilder.new]

theorem ofNames_sorted (t : String) (names : List String) :
    (TableSelectionBuilder.ofNames t names).column_names.Pairwise (fun a b => a < b) := by
  unfold TableSelectionBuilder.ofNames
  exact sorted_foldl_withColumn names _ (by simp [TableSelectionBuilder.new])

/-! ## `BTreeMap` model lemmas -/

theorem mem_keys_btreeMapInsert (a k : String) (v : ColumnDefinition)
    (m : List (String × ColumnDefinition)) :
    a ∈ (btreeMapInsert k v m).map Prod.fst ↔ a = k ∨ a ∈ m.map Prod.fst := by
  induction m with
  | nil => simp [btreeMapInsert]
  | cons kv rest ih =>
    obtain ⟨k', v'⟩ := kv
    simp only [btreeMapInsert]
    split_ifs with h1 h2
    · simp [List.mem_cons]
    · subst h2
      simp [List.mem_cons]
    · simp only [List.map_cons, List.mem_cons, ih]
      tauto

theorem sorted_keys_btreeMapInsert (k : String) (v : ColumnDefinition)
    (m : List (String × ColumnDefinition))
    (h : (m.map Prod.fst).Pairwise (fun a b => a < b)) :
    ((btreeMapInsert k v m).map Prod.fst).Pairwise (fun a b => a < b) := by
  induction m with
  | nil => simp [btreeMapInsert]
  | cons kv rest ih =>
    obtain ⟨k', v'⟩ := kv
    simp only [List.map_cons, List.pairwise_cons] at h
    obtain ⟨hk', hrest⟩ := h
    simp only [btreeMapInsert]
    split_ifs with h1 h2
    · simp only [List.map_cons, List.pairwise_cons]
      refine ⟨?_, ?_, hrest⟩
      · intro b hb
        rcases List.mem_cons.mp hb with rfl | hb'
        · exact (strLt_iff k b).mp h1
        · exact lt_trans ((strLt_iff k k').mp h1) (hk' b hb')
      · exact hk'
    · subst h2
      simp only [List.map_cons, List.pairwise_cons]
      exact ⟨hk', hrest⟩
    · simp only [List.map_cons, List.pairwise_cons]
      refine ⟨?_, ih hrest⟩
      intro b hb
      rcases (mem_keys_btreeMapInsert b k v rest).mp hb with rfl | hb'
      · have hxy : ¬ b < k' := fun hc => h1 ((strLt_iff b k').mpr hc)
        exact lt_of_le_of_ne (not_lt.mp hxy) (Ne.symm h2)
      · exact hk' b hb'

theorem mem_keys_foldl_insert (cols : List ColumnDefinition) :
    ∀ (m : List (String × ColumnDefinition)) (a : String),
      a ∈ (cols.foldl (fun m' col => btreeMapInsert col.column_name col m') m).map Prod.fst ↔
        a ∈ m.map Prod.fst ∨ ∃ c ∈ cols, c.column_name = a := by
  induction cols with
  | nil => intro m a; simp
  | cons c cs ih =>
    intro m a
    simp only [List.foldl_cons, ih, mem_keys_btreeMapInsert, List.mem_cons]
    constructor
    · rintro ((rfl | hm) | ⟨c', hc', rfl⟩)
      · exact Or.inr ⟨c, Or.inl rfl, rfl⟩
      · exact Or.inl hm
      · exact Or.inr ⟨c', Or.inr hc', rfl⟩
    · rintro (hm | ⟨c', (rfl | hc'), rfl⟩)
      · exact Or.inl (Or.inr hm)
      · exact Or.inl (Or.inl rfl)
      · exact Or.inr ⟨c', hc', rfl⟩

theorem sorted_keys_foldl_insert (cols : List ColumnDefinition) :
    ∀ (m : List (String × ColumnDefinition)),
      (m.map Prod.fst).Pairwise (fun a b => a < b) →
      ((cols.foldl (fun m' col => btreeMapInsert col.column_name col m') m).map
        Prod.fst).Pairwise (fun a b => a < b) := by
  induction cols with
  | nil => intro m h; simpa using h
  | cons c cs ih =>
    intro m h
    exact ih _ (sorted_keys_btreeMapInsert c.column_name c m h)

/-! ## `build` computation lemmas -/

theorem build_eq_ok (b : TableSelectionBuilder) (discovered : List ColumnDefinition)
    (h : b.column_names.filter
      (fun n => !((discovered.map (fun col => col.column_name)).contains n)) = []) :
    b.build discovered = .ok
      { table_name := b.table_name
        columns := (discovered.filter
            (fun col => b.column_names.contains col.column_name)).foldl
          (fun m col => btreeMapInsert col.column_name col m) [] } := by
  unfold TableSelectionBuilder.build
  simp only [h]

theorem build_eq_err (b : TableSelectionBuilder) (discovered : List ColumnDefinition)
    (u : String) (rest : List String)
    (h : b.column_names.filter
      (fun n => !((discovered.map (fun col => col.column_name)).contains n)) = u :: rest) :
    b.build discovered = .error (.UnknownColumn u) := by
  unfold TableSelectionBuilder.build
  simp only [h]

/-- C4: for every requested-column set that is a subset of the discovered
column names (including a zero-column catalog answer with an empty request),
`build` succeeds, the resulting columns map's keys are exactly the requested
names, and `header()` is those keys: the requested names sorted ascending
with duplicates collapsed. -/
theorem C4_build_subset_succeeds (t : String) (reqNames : List String)
    (discovered : List ColumnDefinition)
    (hsub : ∀ n ∈ reqNames, n ∈ discovered.map (fun c => c.column_name)) :
    ∃ td, (TableSelectionBuilder.ofNames t reqNames).build discovered = .ok td ∧
      (∀ n, n ∈ td.columns.map Prod.fst ↔ n ∈ reqNames) ∧
      td.header = td.columns.map Prod.fst ∧
      td.header.Pairwise (fun a b => a < b) := by
  have hfil : (TableSelectionBuilder.ofNames t reqNames).column_names.filter
      (fun n => !((discovered.map (fun col => col.column_name)).contains n)) = [] := by
    rw [List.filter_eq_nil_iff]
    intro n hn
    have hreq : n ∈ reqNames := (ofNames_mem t reqNames n).mp hn
    simp [hsub n hreq]
  refine ⟨_, build_eq_ok _ discovered hfil, ?_, rfl, ?_⟩
  · intro n
    rw [mem_keys_foldl_insert]
    simp only [List.map_nil, List.not_mem_nil, false_or]
    constructor
    · rintro ⟨c, hc, rfl⟩
      have hmem := (List.mem_filter.mp hc).2
      have : c.column_name ∈ (TableSelectionBuilder.ofNames t reqNames).column_names := by
        simpa using hmem
      exact (ofNames_mem t reqNames c.column_name).mp this
    · intro hn
      obtain ⟨c, hcdisc, hcn⟩ : ∃ c ∈ discovered, c.column_name = n := by
        have := List.mem_map.mp (hsub n hn)
        simpa using this
      refine ⟨c, List.mem_filter.mpr ⟨hcdisc, ?_⟩, hcn⟩
      have : c.column_name ∈ (TableSelectionBuilder.ofNames t reqNames).column_names :=
        (ofNames_mem t reqNames c.column_name).mpr (hcn ▸ hn)
      simpa using this
  · exact sorted_keys_foldl_insert _ [] (by simp)

/-- C4 witness: the `ORDERS` scenario of §8 with requested columns
`NAME, ID` (inserted in that order) against a three-column catalog. -/
theorem C4_build_subset_succeeds_witness :
    (∀ n ∈ ["NAME", "ID"],
      n ∈ ([⟨"CREATED", true, .Date⟩, ⟨"ID", false, .Number 22 0⟩,
            ⟨"NAME", true, .VarChar 50⟩] : List ColumnDefinition).map
        (fun c => c.column_name)) ∧
    ∃ td, (TableSelectionBuilder.ofNames "ORDERS" ["NAME", "ID"]).build
        [⟨"CREATED", true, .Date⟩, ⟨"ID", false, .Number 22 0⟩,
         ⟨"NAME", true, .VarChar 50⟩] = .ok td ∧
      (∀ n, n ∈ td.columns.map Prod.fst ↔ n ∈ ["NAME", "ID"]) ∧
      td.header = td.columns.map Prod.fst ∧
      td.header.Pairwise (fun a b => a < b) :=
  ⟨by decide, C4_build_subset_succeeds "ORDERS" ["NAME", "ID"] _ (by decide)⟩

/-- C5: a requested-column set containing a name absent from the discovered
columns makes `build` fail with `UnknownColumn` naming the lexicographically
smallest absent requested name, returning no `TableDefinition`. -/
theorem C5_build_unknown_column (t : String) (reqNames : List String)
    (discovered : List ColumnDefinition)
    (hbad : ∃ n ∈ reqNames, n ∉ discovered.map (fun c => c.column_name)) :
    ∃ m, (TableSelectionBuilder.ofNames t reqNames).build discovered =
        .error (.UnknownColumn m) ∧
      m ∈ reqNames ∧ m ∉ discovered.map (fun c => c.column_name) ∧
      ∀ n ∈ reqNames, n ∉ discovered.map (fun c => c.column_name) → m ≤ n := by
  obtain ⟨n0, hn0req, hn0abs⟩ := hbad
  have hn0mem : n0 ∈ (TableSelectionBuilder.ofNames t reqNames).column_names.filter
      (fun n => !((discovered.map (fun col => col.column_name)).contains n)) := by
    refine List.mem_filter.mpr ⟨(ofNames_mem t reqNames n0).mpr hn0req, ?_⟩
    simpa using hn0abs
  cases hcase : (TableSelectionBuilder.ofNames t reqNames).column_names.filter
      (fun n => !((discovered.map (fun col => col.column_name)).contains n)) with
  | nil => rw [hcase] at hn0mem; cases hn0mem
  | cons u rest =>
    have husrt : (u :: rest).Pairwise (fun a b => a < b) := by
      rw [← hcase]
      exact (ofNames_sorted t reqNames).filter _
    refine ⟨u, build_eq_err _ discovered u rest hcase, ?_, ?_, ?_⟩
    · have humem : u ∈ (TableSelectionBuilder.ofNames t reqNames).column_names := by
        have : u ∈ (TableSelectionBuilder.ofNames t reqNames).column_names.filter
            (fun n => !((discovered.map (fun col => col.column_name)).contains n)) := by
          rw [hcase]; exact List.mem_cons_self u rest
        exact (List.mem_filter.mp this).1
      exact (ofNames_mem t reqNames u).mp humem
    · have : u ∈ (TableSelectionBuilder.ofNames t reqNames).column_names.filter
          (fun n => !((discovered.map (fun col => col.column_name)).contains n)) := by
        rw [hcase]; exact List.mem_cons_self u rest
      have := (List.mem_filter.mp this).2
      simpa using this
    · intro n hnreq hnabs
      have hnmem : n ∈ u :: rest := by
        rw [← hcase]
        refine List.mem_filter.mpr ⟨(ofNames_mem t reqNames n).mpr hnreq, ?_⟩
        simpa using hnabs
      rcases List.mem_cons.mp hnmem with rfl | hnrest
      · exact le_refl n
      · exact le_of_lt ((List.pairwise_cons.mp husrt).1 n hnrest)

/-- C5 witness: requesting the unknown columns `ZZZ` and `AAA` against the
`ORDERS` catalog fails naming `AAA`, the smaller of the two. -/
theorem C5_build_unknown_column_witness :
    (∃ n ∈ ["ZZZ", "AAA"],
      n ∉ ([⟨"ID", false, .Number 22 0⟩, ⟨"NAME", true, .VarChar 50⟩] :
        List ColumnDefinition).map (fun c => c.column_name)) ∧
    ∃ m, (TableSelectionBuilder.ofNames "ORDERS" ["ZZZ", "AAA"]).build
        [⟨"ID", false, .Number 22 0⟩, ⟨"NAME", true, .VarChar 50⟩] =
        .error (.UnknownColumn m) ∧
      m ∈ ["ZZZ", "AAA"] ∧
      m ∉ (["ID", "NAME"] : List String) ∧
      ∀ n ∈ ["ZZZ", "AAA"], n ∉ (["ID", "NAME"] : List String) → m ≤ n :=
  ⟨⟨"ZZZ", by decide⟩, C5_build_unknown_column "ORDERS" ["ZZZ", "AAA"] _ ⟨"ZZZ", by decide⟩⟩

/-! ## Type mapper -/

theorem mapDataType_unknown (x : String) (len prec : Option Nat)
    (h : x ∉ ["NUMBER", "VARCHAR2", "DATE", "TIMESTAMP(6)", "BOOL", "CLOB"]) :
    mapDataType x len prec = .error (.UnknownDataType x) := by
  simp only [List.mem_cons, List.not_mem_nil, or_false, not_or] at h
  obtain ⟨h1, h2, h3, h4, h5, h6⟩ := h
  simp [mapDataType, h1, h2, h3, h4, h5, h6]

/-- C6: the type mapper sends each native type descriptor to its `DataType`
by the fixed closed mapping, defaulting absent `DATA_LENGTH`/`DATA_PRECISION`
to 0; any native type string outside the closed set makes the whole catalog
query fail with `UnknownDataType` carrying that type name (the first such
row's name when several occur). -/
theorem C6_type_mapper_closed :
    (∀ len prec : Option Nat,
      mapDataType "NUMBER" len prec = .ok (.Number (len.getD 0) (prec.getD 0))) ∧
    (∀ len prec : Option Nat,
      mapDataType "VARCHAR2" len prec = .ok (.VarChar (len.getD 0))) ∧
    (∀ len prec : Option Nat, mapDataType "CLOB" len prec = .ok .CLob) ∧
    (∀ len prec : Option Nat, mapDataType "DATE" len prec = .ok .Date) ∧
    (∀ len prec : Option Nat, mapDataType "TIMESTAMP(6)" len prec = .ok .DateTime) ∧
    (∀ len prec : Option Nat, mapDataType "BOOL" len prec = .ok .Boolean) ∧
    (∀ (x : String) (len prec : Option Nat),
      x ∉ ["NUMBER", "VARCHAR2", "DATE", "TIMESTAMP(6)", "BOOL", "CLOB"] →
      mapDataType x len prec = .error (.UnknownDataType x)) ∧
    (∀ (pre : List CatalogRow) (bad : CatalogRow) (rest : List CatalogRow),
      (∀ r ∈ pre, ∃ dt, mapDataType r.data_type r.data_length r.data_precision = .ok dt) →
      bad.data_type ∉ ["NUMBER", "VARCHAR2", "DATE", "TIMESTAMP(6)", "BOOL", "CLOB"] →
      query_column_data (pre ++ bad :: rest) =
        .error (.UnknownDataType bad.data_type)) := by
  refine ⟨fun len prec => rfl, fun len prec => rfl, fun len prec => rfl,
    fun len prec => rfl, fun len prec => rfl, fun len prec => rfl,
    mapDataType_unknown, ?_⟩
  intro pre bad rest hpre hbad
  induction pre with
  | nil =>
    simp only [List.nil_append, query_column_data, mapDataType_unknown bad.data_type
      bad.data_length bad.data_precision hbad]
  | cons r pre' ih =>
    obtain ⟨dt, hdt⟩ := hpre r (List.mem_cons_self r pre')
    have ih' := ih (fun r' hr' => hpre r' (List.mem_cons_of_mem r hr'))
    simp only [List.cons_append, query_column_data, hdt, List.append_eq, ih']

/-- C6 witness: a two-row catalog whose second row carries the unmapped
native type `FLOAT` fails with `UnknownDataType "FLOAT"`. -/
theorem C6_type_mapper_closed_witness :
    mapDataType "NUMBER" (some 22) none = .ok (.Number 22 0) ∧
    mapDataType "FLOAT" (some 8) none = .error (.UnknownDataType "FLOAT") ∧
    query_column_data [⟨"A", "Y", "NUMBER", some 22, none⟩,
      ⟨"B", "N", "FLOAT", some 8, none⟩, ⟨"C", "Y", "DATE", none, none⟩] =
      .error (.UnknownDataType "FLOAT") :=
  ⟨C6_type_mapper_closed.1 (some 22) none,
   C6_type_mapper_closed.2.2.2.2.2.2.1 "FLOAT" (some 8) none (by decide),
   C6_type_mapper_closed.2.2.2.2.2.2.2 [⟨"A", "Y", "NUMBER", some 22, none⟩]
     ⟨"B", "N", "FLOAT", some 8, none⟩ [⟨"C", "Y", "DATE", none, none⟩]
     (by intro r hr; simp at hr; subst hr; exact ⟨.Number 22 0, rfl⟩)
     (by decide)⟩

/-! ## Row decoder -/

/-- C7: a `Number` column with precision 0 decodes via the integer getter to
an `i64` value, the same column with positive precision decodes via the float
getter to an `f64` value, and a SQL NULL field decodes to an absent value for
every `DataType` — which serializes to an empty CSV field. -/
theorem C7_field_decode :
    (∀ (name : String) (nb : Bool) (len : Nat) (row : NativeRow) (i : Int),
      (row name).getInt = .ok (some i) →
      decodeField ⟨name, nb, .Number len 0⟩ row = .ok (some (.Number i))) ∧
    (∀ (name : String) (nb : Bool) (len prec : Nat) (row : NativeRow) (f : F64),
      prec > 0 → (row name).getFloat = .ok (some f) →
      decodeField ⟨name, nb, .Number len prec⟩ row = .ok (some (.Float f))) ∧
    (∀ (name : String) (nb : Bool) (dt : DataType) (row : NativeRow),
      CellNull (row name) →
      decodeField ⟨name, nb, dt⟩ row = .ok none) ∧
    serializeOpt none = .empty := by
  refine ⟨?_, ?_, ?_, rfl⟩
  · intro name nb len row i h
    simp [decodeField, h, Except.map]
  · intro name nb len prec row f hprec h
    simp [decodeField, hprec, h, Except.map]
  · intro name nb dt row h
    obtain ⟨hs, hi, hf, hb, hd⟩ := h
    cases dt with
    | VarChar len => simp [decodeField, hs, Except.map]
    | Number len prec =>
      by_cases hprec : prec > 0
      · simp [decodeField, hprec, hf, Except.map]
      · simp [decodeField, hprec, hi, Except.map]
    | Boolean => simp [decodeField, hb, Except.map]
    | Date => simp [decodeField, hd, Except.map]
    | CLob => simp [decodeField, hs, Except.map]
    | DateTime => simp [decodeField, hd, Except.map]

/-- A native cell holding SQL NULL in every getter. -/
def nullCell : NativeCell :=
  { getString := .ok none, getInt := .ok none, getFloat := .ok none,
    getBool := .ok none, getDate := .ok none }

/-- A native row for the §8 scenario: `ID = 5`, `NAME = "Bob"`,
`CREATED = NULL`. -/
def sampleRow : NativeRow := fun name =>
  if name = "ID" then
    { getString := .ok none, getInt := .ok (some 5), getFloat := .ok none,
      getBool := .ok none, getDate := .ok none }
  else if name = "NAME" then
    { getString := .ok (some "Bob"), getInt := .ok none, getFloat := .ok none,
      getBool := .ok none, getDate := .ok none }
  else nullCell

/-- C7 witness: concrete decodes on `sampleRow` plus the NULL cases. -/
theorem C7_field_decode_witness :
    decodeField ⟨"ID", false, .Number 22 0⟩ sampleRow = .ok (some (.Number 5)) ∧
    decodeField ⟨"W", true, .Number 22 4⟩ sampleRow = .ok none ∧
    decodeField ⟨"CREATED", true, .Date⟩ sampleRow = .ok none ∧
    serializeOpt none = .empty :=
  ⟨C7_field_decode.1 "ID" false 22 sampleRow 5 rfl,
   C7_field_decode.2.2.1 "W" true (.Number 22 4) sampleRow
     ⟨rfl, rfl, rfl, rfl, rfl⟩,
   C7_field_decode.2.2.1 "CREATED" true .Date sampleRow
     ⟨rfl, rfl, rfl, rfl, rfl⟩,
   C7_field_decode.2.2.2⟩

/-! ## Producer trace lemmas -/

theorem pushRows_ok (cols : List ColumnDefinition) (lock : Nat → Bool) :
    ∀ (idx : Nat) (rrs : List (Except Error NativeRow))
      (ds : List (List (Option ColumnValue))),
      List.Forall₂ (DecodesTo cols) rrs ds →
      pushRows cols lock idx rrs = (selectPushed lock idx ds, none) := by
  intro idx rrs ds h
  induction h generalizing idx with
  | nil => rfl
  | cons hrd htl ih =>
    obtain ⟨nr, rfl, hdec⟩ := hrd
    simp only [pushRows, hdec, selectPushed, ih (idx + 1)]
    by_cases hl : lock idx <;> simp [hl]

theorem selectPushed_all_true :
    ∀ (idx : Nat) (ds : List (List (Option ColumnValue))),
      selectPushed (fun _ => true) idx ds = ds.map RowIndicator.MoreToCome := by
  intro idx ds
  induction ds generalizing idx with
  | nil => rfl
  | cons d rest ih => simp [selectPushed, ih]

theorem selectPushed_no_end (lock : Nat → Bool) :
    ∀ (idx : Nat) (ds : List (List (Option ColumnValue))),
      RowIndicator.EndOfData ∉ selectPushed lock idx ds := by
  intro idx ds
  induction ds generalizing idx with
  | nil => simp [selectPushed]
  | cons d rest ih =>
    simp only [selectPushed]
    by_cases hl : lock idx
    · simp only [hl, if_true, List.mem_cons]
      rintro (h | h)
      · cases h
      · exact ih (idx + 1) h
    · simp only [hl, if_false]
      exact ih (idx + 1)

theorem selectPushed_length_le (lock : Nat → Bool) :
    ∀ (idx : Nat) (ds : List (List (Option ColumnValue))),
      (selectPushed lock idx ds).length ≤ ds.length := by
  intro idx ds
  induction ds generalizing idx with
  | nil => simp [selectPushed]
  | cons d rest ih =>
    simp only [selectPushed, List.length_cons]
    by_cases hl : lock idx
    · simpa [hl] using ih (idx + 1)
    · simp only [hl, if_false]
      exact le_trans (ih (idx + 1)) (Nat.le_succ _)

theorem selectPushed_length_lt (lock : Nat → Bool) :
    ∀ (ds : List (List (Option ColumnValue))) (idx : Nat),
      (∃ j, j < ds.length ∧ lock (idx + j) = false) →
      (selectPushed lock idx ds).length < ds.length := by
  intro ds
  induction ds with
  | nil => intro idx h; obtain ⟨j, hj, _⟩ := h; simp at hj
  | cons d rest ih =>
    intro idx ⟨j, hj, hlock⟩
    simp only [selectPushed, List.length_cons]
    by_cases hl : lock idx
    · have hj0 : j ≠ 0 := by
        rintro rfl
        rw [Nat.add_zero] at hlock
        rw [hl] at hlock
        cases hlock
      obtain ⟨j', rfl⟩ := Nat.exists_eq_succ_of_ne_zero hj0
      have : (selectPushed lock (idx + 1) rest).length < rest.length := by
        refine ih (idx + 1) ⟨j', ?_, ?_⟩
        · exact Nat.lt_of_succ_lt_succ hj
        · rw [← hlock]
          congr 1
          omega
      simpa [hl] using Nat.succ_lt_succ this
    · simp only [hl, if_false]
      exact Nat.lt_succ_of_le (selectPushed_length_le lock (idx + 1) rest)

theorem pushRows_err (cols : List ColumnDefinition) (lock : Nat → Bool) :
    ∀ (pre : List (Except Error NativeRow)) (ds : List (List (Option ColumnValue)))
      (idx : Nat) (bad : Except Error NativeRow) (e : Error)
      (rest : List (Except Error NativeRow)),
      List.Forall₂ (DecodesTo cols) pre ds →
      BadRow cols bad e →
      pushRows cols lock idx (pre ++ bad :: rest) = (selectPushed lock idx ds, some e) := by
  intro pre ds idx bad e rest hpre hbad
  induction hpre generalizing idx with
  | nil =>
    rcases hbad with rfl | ⟨nr, rfl, hdec⟩
    · rfl
    · simp [pushRows, hdec, selectPushed]
  | cons hrd htl ih =>
    obtain ⟨nr, rfl, hdec⟩ := hrd
    simp only [List.cons_append, pushRows, hdec, selectPushed, ih (idx + 1)]
    by_cases hl : lock idx <;> simp [hl, ih (idx + 1)]

/-! ## Consumer iteration under successful locks -/

theorem consumerIter_nil (e : Nat) (w : List (List (Option ColumnValue))) (c : Nat) :
    consumerIter ⟨[], e, w, c⟩ true true true = .next ⟨[], e, w, c⟩ := rfl

theorem consumerIter_more (r : List (Option ColumnValue)) (q : List RowIndicator)
    (e : Nat) (w : List (List (Option ColumnValue))) (c : Nat) :
    consumerIter ⟨.MoreToCome r :: q, e, w, c⟩ true true true =
      .next ⟨q, e, w ++ [r], c + 1⟩ := rfl

theorem consumerIter_end (q : List RowIndicator) (e : Nat)
    (w : List (List (Option ColumnValue))) (c : Nat) :
    consumerIter ⟨.EndOfData :: q, e, w, c⟩ true true true = .finished ⟨q, e, w, c⟩ := rfl

/-! ## Pipeline invariant -/

theorem take_drop_split {α : Type} (rows : List α) :
    ∀ (k : Nat) (d : α) (tl : List α), rows.drop k = d :: tl →
      rows.take (k + 1) = rows.take k ++ [d] ∧ rows.drop (k + 1) = tl := by
  induction rows with
  | nil => intro k d tl h; rw [List.drop_nil] at h; cases h
  | cons a as ih =>
    intro k d tl h
    cases k with
    | zero =>
      rw [List.drop_zero] at h
      cases h
      simp
    | succ k' =>
      rw [List.drop_succ_cons] at h
      obtain ⟨h1, h2⟩ := ih k' d tl h
      constructor
      · simp [List.take_succ_cons, h1]
      · simpa using h2

theorem pipeInv_init (ds : List (List (Option ColumnValue))) :
    PipeInv ds (initPipe (ds.map RowIndicator.MoreToCome ++ [RowIndicator.EndOfData])) := by
  simp [PipeInv, initPipe]

theorem pipeInv_step (ds : List (List (Option ColumnValue))) (s s' : PipeState)
    (h : PipeInv ds s) (hs : PipeStep s s') : PipeInv ds s' := by
  obtain ⟨hcount, hdone, hrun⟩ := h
  cases hs with
  | producerPush x rest hpend =>
    have hd : s.done = false := by
      cases hdc : s.done with
      | true => rw [(hdone hdc).2.1] at hpend; cases hpend
      | false => rfl
    obtain ⟨hq, hw⟩ := hrun hd
    refine ⟨hcount, ?_, ?_⟩
    · intro hcontra
      dsimp only at hcontra
      rw [hd] at hcontra
      cases hcontra
    · intro _
      dsimp only
      refine ⟨?_, hw⟩
      rw [List.append_assoc]
      rw [hpend] at hq
      exact hq
  | consumerNext cs hd hiter =>
    obtain ⟨hq, hw⟩ := hrun hd
    cases hqcase : s.queue with
    | nil =>
      rw [hqcase, consumerIter_nil] at hiter
      injection hiter with hcs
      subst hcs
      refine ⟨hcount, ?_, ?_⟩
      · intro hcontra
        dsimp only at hcontra
        rw [hd] at hcontra
        cases hcontra
      · intro _
        dsimp only
        rw [hqcase] at hq
        exact ⟨hq, hw⟩
    | cons x q =>
      cases x with
      | MoreToCome r =>
        rw [hqcase, consumerIter_more] at hiter
        injection hiter with hcs
        subst hcs
        rw [hqcase] at hq
        cases hdrop : ds.drop s.written.length with
        | nil =>
          rw [hdrop] at hq
          simp at hq
        | cons d tl =>
          rw [hdrop] at hq
          simp only [List.map_cons, List.cons_append] at hq
          have hrd : RowIndicator.MoreToCome r = RowIndicator.MoreToCome d :=
            (List.cons_eq_cons.mp hq).1
          have hqrest : q ++ s.pending =
              tl.map RowIndicator.MoreToCome ++ [RowIndicator.EndOfData] :=
            (List.cons_eq_cons.mp hq).2
          injection hrd with hrd'
          subst hrd'
          obtain ⟨htake, hdrop'⟩ := take_drop_split ds s.written.length r tl hdrop
          refine ⟨?_, ?_, ?_⟩
          · dsimp only
            simp [hcount]
          · intro hcontra
            dsimp only at hcontra
            rw [hd] at hcontra
            cases hcontra
          · intro _
            dsimp only
            constructor
            · simp only [List.length_append, List.length_cons, List.length_nil,
                Nat.zero_add]
              rw [hdrop']
              exact hqrest
            · simp only [List.length_append, List.length_cons, List.length_nil,
                Nat.zero_add]
              rw [htake, ← hw]
      | EndOfData =>
        rw [hqcase, consumerIter_end] at hiter
        cases hiter
  | consumerFinish cs hd hiter =>
    obtain ⟨hq, hw⟩ := hrun hd
    cases hqcase : s.queue with
    | nil =>
      rw [hqcase, consumerIter_nil] at hiter
      cases hiter
    | cons x q =>
      cases x with
      | MoreToCome r =>
        rw [hqcase, consumerIter_more] at hiter
        cases hiter
      | EndOfData =>
        rw [hqcase, consumerIter_end] at hiter
        injection hiter with hcs
        subst hcs
        rw [hqcase] at hq
        cases hdrop : ds.drop s.written.length with
        | cons d tl =>
          rw [hdrop] at hq
          simp at hq
        | nil =>
          rw [hdrop] at hq
          simp only [List.map_nil, List.nil_append] at hq
          have hqp : q ++ s.pending = [] := (List.cons_eq_cons.mp hq).2
          have hqnil : q = [] := (List.append_eq_nil.mp hqp).1
          have hpnil : s.pending = [] := (List.append_eq_nil.mp hqp).2
          have hlen : ds.length ≤ s.written.length := List.drop_eq_nil_iff.mp hdrop
          have hwr : s.written = ds := by
            rw [hw, List.take_of_length_le hlen]
          refine ⟨hcount, ?_, ?_⟩
          · intro _
            exact ⟨hwr, hpnil, hqnil⟩
          · intro hcontra
            dsimp only at hcontra
            cases hcontra

theorem pipeInv_reach (ds : List (List (Option ColumnValue))) (s : PipeState)
    (h : PipeReach (initPipe (ds.map RowIndicator.MoreToCome ++ [RowIndicator.EndOfData])) s) :
    PipeInv ds s := by
  induction h with
  | refl => exact pipeInv_init ds
  | tail _ hstep ih => exact pipeInv_step ds _ _ ih hstep

/-! ## Pipeline claims -/

theorem query_data_threaded_all_ok (columns : List (String × ColumnDefinition))
    (rrs : List (Except Error NativeRow)) (ds : List (List (Option ColumnValue)))
    (hdec : List.Forall₂ (DecodesTo (columns.map Prod.snd)) rrs ds) :
    query_data_threaded columns (.ok rrs) (fun _ => true) true =
      (ds.map RowIndicator.MoreToCome ++ [RowIndicator.EndOfData], .ok) := by
  simp only [query_data_threaded, pushRows_ok (columns.map Prod.snd) (fun _ => true) 0 rrs ds hdec,
    selectPushed_all_true, if_true]

theorem moreToCome_map_no_end (ds : List (List (Option ColumnValue))) :
    RowIndicator.EndOfData ∉ ds.map RowIndicator.MoreToCome := by
  intro h
  obtain ⟨d, _, hd⟩ := List.mem_map.mp h
  cases hd

/-- C1: with every row decoding successfully and every queue-lock acquisition
succeeding, the threaded producer pushes exactly the N decoded rows as
`MoreToCome`, followed by exactly one `EndOfData` as the last element ever
pushed; every interleaved consumer execution that reaches termination has
serialized exactly those N rows and left the shared counter at N. -/
theorem C1_pipeline_exact_counts (columns : List (String × ColumnDefinition))
    (rrs : List (Except Error NativeRow)) (ds : List (List (Option ColumnValue)))
    (hdec : List.Forall₂ (DecodesTo (columns.map Prod.snd)) rrs ds) :
    query_data_threaded columns (.ok rrs) (fun _ => true) true =
      (ds.map RowIndicator.MoreToCome ++ [RowIndicator.EndOfData], .ok) ∧
    (query_data_threaded columns (.ok rrs) (fun _ => true) true).1.count
      RowIndicator.EndOfData = 1 ∧
    (query_data_threaded columns (.ok rrs) (fun _ => true) true).1.getLast? =
      some RowIndicator.EndOfData ∧
    (query_data_threaded columns (.ok rrs) (fun _ => true) true).1.length = ds.length + 1 ∧
    ∀ s, PipeReach
        (initPipe (query_data_threaded columns (.ok rrs) (fun _ => true) true).1) s →
      s.done = true → s.written = ds ∧ s.counter = ds.length := by
  have htr := query_data_threaded_all_ok columns rrs ds hdec
  refine ⟨htr, ?_, ?_, ?_, ?_⟩
  · rw [htr]
    simp only [List.count_append]
    rw [List.count_eq_zero.mpr (moreToCome_map_no_end ds)]
    simp
  · rw [htr]
    simp
  · rw [htr]
    simp
  · intro s hreach hdone
    rw [htr] at hreach
    have hinv := pipeInv_reach ds s hreach
    obtain ⟨hwr, _, _⟩ := hinv.2.1 hdone
    refine ⟨hwr, ?_⟩
    rw [hinv.1, hwr]

/-- C1 witness: the §8 scenario — one decodable row through the pipeline. -/
theorem C1_pipeline_exact_counts_witness :
    List.Forall₂
      (DecodesTo (([("ID", ⟨"ID", false, .Number 22 0⟩),
        ("NAME", ⟨"NAME", true, .VarChar 50⟩)] :
          List (String × ColumnDefinition)).map Prod.snd))
      [.ok sampleRow] [[some (.Number 5), some (.Varchar "Bob")]] ∧
    (query_data_threaded [("ID", ⟨"ID", false, .Number 22 0⟩),
        ("NAME", ⟨"NAME", true, .VarChar 50⟩)] (.ok [.ok sampleRow])
        (fun _ => true) true =
      ([.MoreToCome [some (.Number 5), some (.Varchar "Bob")], .EndOfData], .ok) ∧
    (query_data_threaded [("ID", ⟨"ID", false, .Number 22 0⟩),
        ("NAME", ⟨"NAME", true, .VarChar 50⟩)] (.ok [.ok sampleRow])
        (fun _ => true) true).1.count RowIndicator.EndOfData = 1 ∧
    (query_data_threaded [("ID", ⟨"ID", false, .Number 22 0⟩),
        ("NAME", ⟨"NAME", true, .VarChar 50⟩)] (.ok [.ok sampleRow])
        (fun _ => true) true).1.getLast? = some RowIndicator.EndOfData ∧
    (query_data_threaded [("ID", ⟨"ID", false, .Number 22 0⟩),
        ("NAME", ⟨"NAME", true, .VarChar 50⟩)] (.ok [.ok sampleRow])
        (fun _ => true) true).1.length =
      ([[some (.Number 5), some (.Varchar "Bob")]] :
        List (List (Option ColumnValue))).length + 1 ∧
    ∀ s, PipeReach (initPipe (query_data_threaded [("ID", ⟨"ID", false, .Number 22 0⟩),
        ("NAME", ⟨"NAME", true, .VarChar 50⟩)] (.ok [.ok sampleRow])
        (fun _ => true) true).1) s →
      s.done = true →
        s.written = [[some (.Number 5), some (.Varchar "Bob")]] ∧
        s.counter = ([[some (.Number 5), some (.Varchar "Bob")]] :
          List (List (Option ColumnValue))).length) :=
  have hdec : List.Forall₂
      (DecodesTo (([("ID", ⟨"ID", false, .Number 22 0⟩),
        ("NAME", ⟨"NAME", true, .VarChar 50⟩)] :
          List (String × ColumnDefinition)).map Prod.snd))
      [.ok sampleRow] [[some (.Number 5), some (.Varchar "Bob")]] :=
    List.Forall₂.cons ⟨sampleRow, rfl, rfl⟩ List.Forall₂.nil
  ⟨hdec, C1_pipeline_exact_counts _ [.ok sampleRow]
    [[some (.Number 5), some (.Varchar "Bob")]] hdec⟩

/-- C2: strict FIFO — in every reachable pipeline state the serialized output
is a prefix of the producer's row sequence (so any row retrieved earlier is
serialized strictly before any retrieved later), and the consumer has handled
`EndOfData` only if it has first serialized every row pushed before it. -/
theorem C2_fifo_order (columns : List (String × ColumnDefinition))
    (rrs : List (Except Error NativeRow)) (ds : List (List (Option ColumnValue)))
    (hdec : List.Forall₂ (DecodesTo (columns.map Prod.snd)) rrs ds) :
    ∀ s, PipeReach
        (initPipe (query_data_threaded columns (.ok rrs) (fun _ => true) true).1) s →
      s.written = ds.take s.written.length ∧ (s.done = true → s.written = ds) := by
  intro s hreach
  rw [query_data_threaded_all_ok columns rrs ds hdec] at hreach
  have hinv := pipeInv_reach ds s hreach
  constructor
  · cases hdc : s.done with
    | false => exact (hinv.2.2 hdc).2
    | true =>
      obtain ⟨hwr, _, _⟩ := hinv.2.1 hdc
      rw [hwr]
      exact (List.take_length ds).symm
  · intro hdone
    exact (hinv.2.1 hdone).1

/-- C2 witness: the §8 scenario instantiated. -/
theorem C2_fifo_order_witness :
    List.Forall₂
      (DecodesTo (([("ID", ⟨"ID", false, .Number 22 0⟩),
        ("NAME", ⟨"NAME", true, .VarChar 50⟩)] :
          List (String × ColumnDefinition)).map Prod.snd))
      [.ok sampleRow] [[some (.Number 5), some (.Varchar "Bob")]] ∧
    ∀ s, PipeReach (initPipe (query_data_threaded [("ID", ⟨"ID", false, .Number 22 0⟩),
        ("NAME", ⟨"NAME", true, .VarChar 50⟩)] (.ok [.ok sampleRow])
        (fun _ => true) true).1) s →
      s.written = ([[some (.Number 5), some (.Varchar "Bob")]] :
          List (List (Option ColumnValue))).take s.written.length ∧
      (s.done = true → s.written = [[some (.Number 5), some (.Varchar "Bob")]]) :=
  have hdec : List.Forall₂
      (DecodesTo (([("ID", ⟨"ID", false, .Number 22 0⟩),
        ("NAME", ⟨"NAME", true, .VarChar 50⟩)] :
          List (String × ColumnDefinition)).map Prod.snd))
      [.ok sampleRow] [[some (.Number 5), some (.Varchar "Bob")]] :=
    List.Forall₂.cons ⟨sampleRow, rfl, rfl⟩ List.Forall₂.nil
  ⟨hdec, C2_fifo_order _ [.ok sampleRow] [[some (.Number 5), some (.Varchar "Bob")]] hdec⟩

/-- C3: if the initial query fails, or any row result / per-field decode
fails after a prefix of good rows, `query_data_threaded` returns that first
error; the only pushes are those for rows strictly before the failing one
(`selectPushed` of the good prefix — nothing from the failing row onward),
and `EndOfData` is never pushed. -/
theorem C3_producer_error_no_sentinel (columns : List (String × ColumnDefinition)) :
    (∀ (e : Error) (lock : Nat → Bool) (endLock : Bool),
      query_data_threaded columns (.error e) lock endLock = ([], .err e)) ∧
    (∀ (pre : List (Except Error NativeRow)) (ds : List (List (Option ColumnValue)))
      (bad : Except Error NativeRow) (e : Error) (rest : List (Except Error NativeRow))
      (lock : Nat → Bool) (endLock : Bool),
      List.Forall₂ (DecodesTo (columns.map Prod.snd)) pre ds →
      BadRow (columns.map Prod.snd) bad e →
      query_data_threaded columns (.ok (pre ++ bad :: rest)) lock endLock =
        (selectPushed lock 0 ds, .err e) ∧
      RowIndicator.EndOfData ∉ selectPushed lock 0 ds) := by
  refine ⟨fun e lock endLock => rfl, ?_⟩
  intro pre ds bad e rest lock endLock hpre hbad
  refine ⟨?_, selectPushed_no_end lock 0 ds⟩
  simp only [query_data_threaded,
    pushRows_err (columns.map Prod.snd) lock pre ds 0 bad e rest hpre hbad]

/-- C3 witness: one good row, then a failing row result; the good row is
pushed, the error is returned, and no `EndOfData` appears. -/
theorem C3_producer_error_no_sentinel_witness :
    List.Forall₂
      (DecodesTo (([("ID", ⟨"ID", false, .Number 22 0⟩),
        ("NAME", ⟨"NAME", true, .VarChar 50⟩)] :
          List (String × ColumnDefinition)).map Prod.snd))
      [.ok sampleRow] [[some (.Number 5), some (.Varchar "Bob")]] ∧
    BadRow (([("ID", ⟨"ID", false, .Number 22 0⟩),
        ("NAME", ⟨"NAME", true, .VarChar 50⟩)] :
          List (String × ColumnDefinition)).map Prod.snd)
      (.error (.DatabaseError "connection reset")) (.DatabaseError "connection reset") ∧
    (query_data_threaded [("ID", ⟨"ID", false, .Number 22 0⟩),
        ("NAME", ⟨"NAME", true, .VarChar 50⟩)]
        (.ok [.ok sampleRow, .error (.DatabaseError "connection reset")])
        (fun _ => true) true =
      (selectPushed (fun _ => true) 0 [[some (.Number 5), some (.Varchar "Bob")]],
        .err (.DatabaseError "connection reset")) ∧
    RowIndicator.EndOfData ∉
      selectPushed (fun _ => true) 0 [[some (.Number 5), some (.Varchar "Bob")]]) :=
  have hdec : List.Forall₂
      (DecodesTo (([("ID", ⟨"ID", false, .Number 22 0⟩),
        ("NAME", ⟨"NAME", true, .VarChar 50⟩)] :
          List (String × ColumnDefinition)).map Prod.snd))
      [.ok sampleRow] [[some (.Number 5), some (.Varchar "Bob")]] :=
    List.Forall₂.cons ⟨sampleRow, rfl, rfl⟩ List.Forall₂.nil
  ⟨hdec, Or.inl rfl,
   (C3_producer_error_no_sentinel _).2 [.ok sampleRow]
     [[some (.Number 5), some (.Varchar "Bob")]]
     (.error (.DatabaseError "connection reset")) (.DatabaseError "connection reset")
     [] (fun _ => true) true hdec (Or.inl rfl)⟩

/-- C10: when every row decodes but some mid-stream queue write-lock
acquisitions fail, the producer still returns success and pushes the sentinel;
it delivers exactly the rows whose lock succeeded, so with at least one
failure strictly fewer `MoreToCome` elements than rows retrieved — and no
error is reported to the caller. -/
theorem C10_lock_failure_drops_rows (columns : List (String × ColumnDefinition))
    (rrs : List (Except Error NativeRow)) (ds : List (List (Option ColumnValue)))
    (lock : Nat → Bool)
    (hdec : List.Forall₂ (DecodesTo (columns.map Prod.snd)) rrs ds) :
    query_data_threaded columns (.ok rrs) lock true =
      (selectPushed lock 0 ds ++ [RowIndicator.EndOfData], .ok) ∧
    (selectPushed lock 0 ds).length ≤ ds.length ∧
    ((∃ j, j < ds.length ∧ lock j = false) →
      (selectPushed lock 0 ds).length < ds.length) := by
  refine ⟨?_, selectPushed_length_le lock 0 ds,
    fun h => selectPushed_length_lt lock ds 0 (by simpa using h)⟩
  simp only [query_data_threaded, pushRows_ok (columns.map Prod.snd) lock 0 rrs ds hdec,
    if_true]

/-- C10 witness: two decodable rows with the first row's lock failing — one
`MoreToCome` is dropped, yet the outcome is success with the sentinel. -/
theorem C10_lock_failure_drops_rows_witness :
    List.Forall₂
      (DecodesTo (([("ID", ⟨"ID", false, .Number 22 0⟩),
        ("NAME", ⟨"NAME", true, .VarChar 50⟩)] :
          List (String × ColumnDefinition)).map Prod.snd))
      [.ok sampleRow, .ok sampleRow]
      [[some (.Number 5), some (.Varchar "Bob")], [some (.Number 5), some (.Varchar "Bob")]] ∧
    (query_data_threaded [("ID", ⟨"ID", false, .Number 22 0⟩),
        ("NAME", ⟨"NAME", true, .VarChar 50⟩)]
        (.ok [.ok sampleRow, .ok sampleRow]) (fun i => i != 0) true =
      (selectPushed (fun i => i != 0) 0
        [[some (.Number 5), some (.Varchar "Bob")], [some (.Number 5), some (.Varchar "Bob")]] ++
        [RowIndicator.EndOfData], .ok) ∧
    (selectPushed (fun i => i != 0) 0
      [[some (.Number 5), some (.Varchar "Bob")], [some (.Number 5), some (.Varchar "Bob")]]).length ≤ 2 ∧
    ((∃ j, j < 2 ∧ (fun i : Nat => i != 0) j = false) →
      (selectPushed (fun i => i != 0) 0
        [[some (.Number 5), some (.Varchar "Bob")], [some (.Number 5), some (.Varchar "Bob")]]).length < 2)) :=
  have hdec : List.Forall₂
      (DecodesTo (([("ID", ⟨"ID", false, .Number 22 0⟩),
        ("NAME", ⟨"NAME", true, .VarChar 50⟩)] :
          List (String × ColumnDefinition)).map Prod.snd))
      [.ok sampleRow, .ok sampleRow]
      [[some (.Number 5), some (.Varchar "Bob")], [some (.Number 5), some (.Varchar "Bob")]] :=
    List.Forall₂.cons ⟨sampleRow, rfl, rfl⟩
      (List.Forall₂.cons ⟨sampleRow, rfl, rfl⟩ List.Forall₂.nil)
  ⟨hdec, C10_lock_failure_drops_rows _ [.ok sampleRow, .ok sampleRow]
    [[some (.Number 5), some (.Varchar "Bob")], [some (.Number 5), some (.Varchar "Bob")]]
    (fun i => i != 0) hdec⟩

/-! ## Row-width invariant -/

theorem decodeRowValues_aligned (cols : List ColumnDefinition) (nr : NativeRow) :
    ∀ vals, decodeRowValues cols nr = .ok vals → Aligned cols nr vals := by
  induction cols with
  | nil =>
    intro vals h
    injection h with h'
    subst h'
    exact ⟨rfl, fun i hc hv => absurd hc (Nat.not_lt_zero i)⟩
  | cons c cs ih =>
    intro vals h
    simp only [decodeRowValues] at h
    cases hf : decodeField c nr with
    | error e => rw [hf] at h; cases h
    | ok v =>
      rw [hf] at h
      cases hrest : decodeRowValues cs nr with
      | error e => rw [hrest] at h; cases h
      | ok vs =>
        rw [hrest] at h
        injection h with h'
        subst h'
        obtain ⟨hlen, halign⟩ := ih vs hrest
        refine ⟨by simp [hlen], ?_⟩
        intro i hc hv
        cases i with
        | zero => simpa using hf
        | succ i' =>
          have hc' : i' < cs.length := by simpa using hc
          have hv' : i' < vs.length := by simpa using hv
          simpa using halign i' hc' hv'

theorem mem_pushRows (cols : List ColumnDefinition) (lock : Nat → Bool) :
    ∀ (idx : Nat) (rrs : List (Except Error NativeRow)) (x : RowIndicator),
      x ∈ (pushRows cols lock idx rrs).1 →
      ∃ nr vals, x = .MoreToCome vals ∧ decodeRowValues cols nr = .ok vals := by
  intro idx rrs
  induction rrs generalizing idx with
  | nil => intro x hx; simp [pushRows] at hx
  | cons rr rest ih =>
    intro x hx
    cases rr with
    | error e => simp [pushRows] at hx
    | ok row =>
      simp only [pushRows] at hx
      cases hdec : decodeRowValues cols row with
      | error e => rw [hdec] at hx; simp at hx
      | ok vals =>
        rw [hdec] at hx
        by_cases hl : lock idx
        · simp only [hl, if_true, List.mem_cons] at hx
          rcases hx with rfl | hx'
          · exact ⟨row, vals, rfl, hdec⟩
          · exact ih (idx + 1) x hx'
        · simp only [hl, if_false] at hx
          exact ih (idx + 1) x hx

theorem mem_collectDataRows (columns : List (String × ColumnDefinition)) :
    ∀ (rrs : List (Except Error NativeRow)) (drs : List DataRow),
      collectDataRows columns rrs = .ok drs →
      ∀ dr ∈ drs, dr.column_defs = columns ∧
        ∃ nr, decodeRowValues (columns.map Prod.snd) nr = .ok dr.column_values := by
  intro rrs
  induction rrs with
  | nil =>
    intro drs h dr hdr
    injection h with h'
    subst h'
    cases hdr
  | cons rr rest ih =>
    intro drs h dr hdr
    cases rr with
    | error e => cases h
    | ok row =>
      simp only [collectDataRows] at h
      cases hdec : decodeRowValues (columns.map Prod.snd) row with
      | error e => rw [hdec] at h; cases h
      | ok vals =>
        rw [hdec] at h
        cases hrest : collectDataRows columns rest with
        | error e => rw [hrest] at h; cases h
        | ok drs' =>
          rw [hrest] at h
          injection h with h'
          subst h'
          rcases List.mem_cons.mp hdr with rfl | hdr'
          · exact ⟨rfl, row, hdec⟩
          · exact ih drs' hrest dr hdr'

/-- C8: every `MoreToCome` payload the threaded producer pushes and every
`DataRow` the bulk provider builds has exactly one entry per column of the
`TableDefinition`, positionally aligned with its canonical ascending-by-name
column order (the map's value sequence); bulk rows also carry the back link
to that column map. -/
theorem C8_row_width_aligned (td : TableDefinition)
    (queryRes : Except Error (List (Except Error NativeRow)))
    (lock : Nat → Bool) (endLock : Bool) :
    (∀ vals, RowIndicator.MoreToCome vals ∈
        (query_data_threaded td.columns queryRes lock endLock).1 →
      vals.length = td.columns.length ∧
      ∃ nr, Aligned (td.columns.map Prod.snd) nr vals) ∧
    (∀ drs, query_data td.columns queryRes = .ok drs →
      ∀ dr ∈ drs, dr.column_defs = td.columns ∧
        dr.column_values.length = td.columns.length ∧
        ∃ nr, Aligned (td.columns.map Prod.snd) nr dr.column_values) := by
  constructor
  · intro vals hmem
    cases queryRes with
    | error e => simp [query_data_threaded] at hmem
    | ok rrs =>
      have hx : RowIndicator.MoreToCome vals ∈
          (pushRows (td.columns.map Prod.snd) lock 0 rrs).1 := by
        simp only [query_data_threaded] at hmem
        rcases hp : pushRows (td.columns.map Prod.snd) lock 0 rrs with ⟨pushes, errOpt⟩
        rw [hp] at hmem
        cases errOpt with
        | some e =>
          simp only at hmem
          exact hmem
        | none =>
          dsimp only at hmem
          by_cases hel : endLock
          · simp only [hel, if_true] at hmem
            rcases List.mem_append.mp hmem with hmem' | hmem'
            · exact hmem'
            · simp at hmem'
          · simp only [hel, if_false] at hmem
            exact hmem
      obtain ⟨nr, vals', heq, hdec⟩ := mem_pushRows (td.columns.map Prod.snd) lock 0 rrs _ hx
      injection heq with heq'
      subst heq'
      have hal := decodeRowValues_aligned (td.columns.map Prod.snd) nr vals hdec
      refine ⟨?_, nr, hal⟩
      rw [hal.1, List.length_map]
  · intro drs hok dr hdr
    cases queryRes with
    | error e => cases hok
    | ok rrs =>
      obtain ⟨hdefs, nr, hdec⟩ := mem_collectDataRows td.columns rrs drs hok dr hdr
      have hal := decodeRowValues_aligned (td.columns.map Prod.snd) nr dr.column_values hdec
      refine ⟨hdefs, ?_, nr, hal⟩
      rw [hal.1, List.length_map]

/-- C8 witness: the §8 table with one pushed row and one bulk row. -/
theorem C8_row_width_aligned_witness :
    (RowIndicator.MoreToCome [some (.Number 5), some (.Varchar "Bob")] ∈
      (query_data_threaded (⟨"ORDERS", [("ID", ⟨"ID", false, .Number 22 0⟩),
          ("NAME", ⟨"NAME", true, .VarChar 50⟩)]⟩ : TableDefinition).columns
        (.ok [.ok sampleRow]) (fun _ => true) true).1 ∧
      ([some (.Number 5), some (.Varchar "Bob")] : List (Option ColumnValue)).length =
        (⟨"ORDERS", [("ID", ⟨"ID", false, .Number 22 0⟩),
          ("NAME", ⟨"NAME", true, .VarChar 50⟩)]⟩ : TableDefinition).columns.length ∧
      ∃ nr, Aligned ((⟨"ORDERS", [("ID", ⟨"ID", false, .Number 22 0⟩),
          ("NAME", ⟨"NAME", true, .VarChar 50⟩)]⟩ : TableDefinition).columns.map Prod.snd)
        nr [some (.Number 5), some (.Varchar "Bob")]) ∧
    (query_data (⟨"ORDERS", [("ID", ⟨"ID", false, .Number 22 0⟩),
        ("NAME", ⟨"NAME", true, .VarChar 50⟩)]⟩ : TableDefinition).columns
      (.ok [.ok sampleRow]) =
      .ok [⟨[("ID", ⟨"ID", false, .Number 22 0⟩), ("NAME", ⟨"NAME", true, .VarChar 50⟩)],
        [some (.Number 5), some (.Varchar "Bob")]⟩]) :=
  have hmem : RowIndicator.MoreToCome [some (.Number 5), some (.Varchar "Bob")] ∈
      (query_data_threaded (⟨"ORDERS", [("ID", ⟨"ID", false, .Number 22 0⟩),
          ("NAME", ⟨"NAME", true, .VarChar 50⟩)]⟩ : TableDefinition).columns
        (.ok [.ok sampleRow]) (fun _ => true) true).1 := by
    rw [show (query_data_threaded (⟨"ORDERS", [("ID", ⟨"ID", false, .Number 22 0⟩),
          ("NAME", ⟨"NAME", true, .VarChar 50⟩)]⟩ : TableDefinition).columns
        (.ok [.ok sampleRow]) (fun _ => true) true).1 =
      [.MoreToCome [some (.Number 5), some (.Varchar "Bob")], .EndOfData] from rfl]
    exact List.mem_cons_self _ _
  ⟨⟨hmem,
    ((C8_row_width_aligned ⟨"ORDERS", [("ID", ⟨"ID", false, .Number 22 0⟩),
        ("NAME", ⟨"NAME", true, .VarChar 50⟩)]⟩
      (.ok [.ok sampleRow]) (fun _ => true) true).1
      [some (.Number 5), some (.Varchar "Bob")] hmem).1,
    ((C8_row_width_aligned ⟨"ORDERS", [("ID", ⟨"ID", false, .Number 22 0⟩),
        ("NAME", ⟨"NAME", true, .VarChar 50⟩)]⟩
      (.ok [.ok sampleRow]) (fun _ => true) true).1
      [some (.Number 5), some (.Varchar "Bob")] hmem).2⟩, rfl⟩

/-! ## Consumer lock-failure budget -/

/-- C9: each failed read-lock or write-lock acquisition in the consumer loop
increments the single local `error_count`; once the incremented count exceeds
the threshold 3 the consumer panics, and at or below the threshold the pass
only logs — the next state differs solely in the incremented counter and the
loop retries. -/
theorem C9_lock_failure_threshold :
    (∀ (s : ConsumerState) (w c : Bool), s.error_count + 1 > 3 →
      consumerIter s false w c = .panicked) ∧
    (∀ (s : ConsumerState) (w c : Bool), s.error_count + 1 ≤ 3 →
      consumerIter s false w c = .next { s with error_count := s.error_count + 1 }) ∧
    (∀ (s : ConsumerState) (c : Bool), s.queue ≠ [] → s.error_count + 1 > 3 →
      consumerIter s true false c = .panicked) ∧
    (∀ (s : ConsumerState) (c : Bool), s.queue ≠ [] → s.error_count + 1 ≤ 3 →
      consumerIter s true false c = .next { s with error_count := s.error_count + 1 }) := by
  refine ⟨?_, ?_, ?_, ?_⟩
  · intro s w c h
    simp [consumerIter, h]
  · intro s w c h
    simp [consumerIter, Nat.not_lt.mpr h]
  · intro s c hq h
    cases hqc : s.queue with
    | nil => exact absurd hqc hq
    | cons x q => simp [consumerIter, hqc, h]
  · intro s c hq h
    cases hqc : s.queue with
    | nil => exact absurd hqc hq
    | cons x q =>
      simp only [consumerIter, hqc, List.isEmpty_cons, if_true, if_false,
        Bool.false_eq_true, Nat.not_lt.mpr h]

/-- C9 witness: at `error_count = 3` a read-lock failure panics; at 0 it
retries with the counter at 1; likewise for a write-lock failure on a
non-empty queue. -/
theorem C9_lock_failure_threshold_witness :
    (consumerIter ⟨[], 3, [], 0⟩ false true true = .panicked) ∧
    (consumerIter ⟨[], 0, [], 0⟩ false true true = .next ⟨[], 1, [], 0⟩) ∧
    (consumerIter ⟨[.EndOfData], 3, [], 0⟩ true false true = .panicked) ∧
    (consumerIter ⟨[.EndOfData], 0, [], 0⟩ true false true = .next ⟨[.EndOfData], 1, [], 0⟩) :=
  ⟨C9_lock_failure_threshold.1 ⟨[], 3, [], 0⟩ true true (by decide),
   C9_lock_failure_threshold.2.1 ⟨[], 0, [], 0⟩ true true (by decide),
   C9_lock_failure_threshold.2.2.1 ⟨[.EndOfData], 3, [], 0⟩ true (by simp) (by decide),
   C9_lock_failure_threshold.2.2.2 ⟨[.EndOfData], 0, [], 0⟩ true (by simp) (by decide)⟩

end Csvdump
